import Mathlib

/-!
Verification development for the flax nnx basics notebook
(`docs/experimental/nnx/nnx_basics.ipynb`).

The notebook defines the Python classes `Linear`, `Counter`, `Block`,
`MLP`, `Count` and `StatefulLinear` and exercises the nnx Functional API
(`split`, `merge`, `update`).  The nnx framework itself is not part of
this repository, so its State/GraphDef machinery is modelled from the
spec; the notebook's own classes are embedded directly from the source.
-/

/-- Modelled from the spec: a jax vector (1-d array) — a length and an
entry function (entries outside the range are irrelevant). -/
structure Vec where
  len : Nat
  ent : Nat → Int

/-- Modelled from the spec: a jax matrix (2-d array) with an explicit
shape, as jax arrays carry their shape. -/
structure Arr where
  rows : Nat
  cols : Nat
  ent : Nat → Nat → Int

/-- Dynamic values stored in nnx Variables: integer scalars (the
`count`), vectors (the bias `b`) and matrices (the weight `w`). -/
inductive Value where
  | int (i : Int)
  | vec (v : Vec)
  | mat (m : Arr)

/-- Variable types appearing in the notebook: `nnx.Param`, the custom
`Count` subclass (`class Count(nnx.Variable): pass`) and plain
`nnx.Variable`. -/
inductive VarType where
  | Param
  | Count
  | PlainVariable
deriving DecidableEq, Repr

/-- Modelled from the spec: an nnx Variable, a typed box holding a
dynamic value (`nnx.Param(...)`, `Count(0)`, `nnx.Variable(0)`). -/
structure Var where
  varType : VarType
  value : Value

/-- Modelled from the spec: a State is "a Mapping from strings to
Variables", here an association list in attribute order. -/
abbrev NState : Type := List (String × Var)

/-- First-match lookup in an association list keyed by strings. -/
def lookupS {α : Type} (n : String) : List (String × α) → Option α
  | [] => none
  | (k, v) :: rest => if k = n then some v else lookupS n rest

/-- A Module of the dynamic part the Functional API sees: static
attributes (such as `din`, `dout` on `Linear`) and named Variables in
attribute order.  This is the flat object the notebook prints as
`State({'w': ..., 'b': ..., 'count': ...})` together with its statics. -/
structure FlatModule where
  staticFields : List (String × Value)
  vars : List (String × Var)

/-- Modelled from the spec: GraphDef "contains all the static
information needed to reconstruct a Module graph" — the attribute names,
the static fields and, per Variable, its name and type (the notebook
prints `GraphDef(type=..., attributes=('w','b','count'),
static_fields={}, variables={'w': VariableDef(type=Param, ...), ...})`). -/
structure GraphDef where
  attributes : List String
  staticFields : List (String × Value)
  variableDefs : List (String × VarType)

/-- Modelled from the spec: `.split()` decomposes a Module into a
GraphDef and a State pytree. -/
def FlatModule.split (m : FlatModule) : GraphDef × NState :=
  (⟨m.staticFields.map Prod.fst ++ m.vars.map Prod.fst,
    m.staticFields,
    m.vars.map (fun nv => (nv.1, nv.2.varType))⟩,
   m.vars)

/-- Modelled from the spec: "merge is the reverse of split, it takes the
GraphDef + State and reconstructs the Module".  Each VariableDef of the
GraphDef pulls the Variable of the same name out of the State; a name
missing from the State is an error (`none`). -/
def GraphDef.merge (g : GraphDef) (s : NState) : Option FlatModule :=
  (g.variableDefs.mapM (fun nt => (lookupS nt.1 s).map (fun v => (nt.1, v)))).map
    (fun vs => ⟨g.staticFields, vs⟩)

/-- Keys of an association list. -/
def keysOf {α : Type} (l : List (String × α)) : List String :=
  l.map Prod.fst


/-- Modelled from the spec: the jax matrix product `x @ w`
(`(x @ w)[i, j] = sum_k x[i, k] * w[k, j]`). -/
def matMulA (x w : Arr) : Arr :=
  ⟨x.rows, w.cols, fun i j => ∑ k ∈ Finset.range x.cols, x.ent i k * w.ent k j⟩

/-- Modelled from the spec: jax broadcast addition `y + b` of a matrix
and a vector, adding `b` to every row. -/
def addRowVec (y : Arr) (b : Vec) : Arr :=
  ⟨y.rows, y.cols, fun i j => y.ent i j + b.ent j⟩

/-- Modelled from the spec: `nnx.relu`, elementwise `max 0`. -/
def reluA (x : Arr) : Arr :=
  ⟨x.rows, x.cols, fun i j => max (x.ent i j) 0⟩

/-- The `Counter` Module of the notebook:
`def __init__(self): self.count = nnx.Variable(0)`. -/
structure Counter where
  count : Int

/-- `Counter()` — construction sets `count` to `0`. -/
def Counter.init : Counter := ⟨0⟩

/-- `Counter.__call__`: `self.count.value += 1`. -/
def Counter.call (c : Counter) : Counter := ⟨c.count + 1⟩

/-- `n` successive calls to a `Counter` instance. -/
def Counter.callN (c : Counter) : Nat → Counter
  | 0 => c
  | n + 1 => (c.callN n).call

/-- The `StatefulLinear` Module of the notebook: Params `w` and `b` and
a `Count` Variable `count` initialised to `0`. -/
structure StatefulLinear where
  w : Arr
  b : Vec
  count : Int

/-- `StatefulLinear.__call__`:
`self.count.value += 1; return x @ self.w.value + self.b.value`. -/
def StatefulLinear.call (m : StatefulLinear) (x : Arr) : Arr × StatefulLinear :=
  (addRowVec (matMulA x m.w) m.b, { m with count := m.count + 1 })

/-- Modelled from the spec: `nnx.Linear` — kernel and bias, applied as
`x @ kernel + bias`. -/
structure LinearMod where
  kernel : Arr
  bias : Vec

def LinearMod.call (l : LinearMod) (x : Arr) : Arr :=
  addRowVec (matMulA x l.kernel) l.bias

/-- Modelled from the spec: `nnx.BatchNorm` with
`use_running_average=True` — a per-feature affine normalisation using
stored statistics (`invstd` holds the precomputed reciprocal standard
deviation), with no state update. -/
structure BatchNormMod where
  scale : Vec
  bias : Vec
  mean : Vec
  invstd : Vec

def BatchNormMod.call (bn : BatchNormMod) (x : Arr) : Arr :=
  ⟨x.rows, x.cols, fun i j =>
    (x.ent i j - bn.mean.ent j) * bn.invstd.ent j * bn.scale.ent j + bn.bias.ent j⟩

/-- The `Block` Module of the notebook:
`return nnx.relu(self.bn(self.linear(x)))`. -/
structure BlockMod where
  linear : LinearMod
  bn : BatchNormMod

def BlockMod.call (b : BlockMod) (x : Arr) : Arr :=
  reluA (b.bn.call (b.linear.call x))

/-- An entry of `MLP.blocks` after model surgery: either a `Block`
Module or a plain function monkey-patched in (`awesome_layer`). -/
inductive Layer where
  | block (b : BlockMod)
  | fn (f : Arr → Arr)

/-- Calling one entry of `MLP.blocks` (`x = block(x)`). -/
def Layer.apply : Layer → Arr → Arr
  | .block b, x => b.call x
  | .fn f, x => f x

/-- The `MLP` Module of the notebook: a list of blocks. -/
structure MLP where
  blocks : List Layer

/-- `MLP.__call__`: `for block in self.blocks: x = block(x); return x`. -/
def MLP.call (m : MLP) (x : Arr) : Arr :=
  m.blocks.foldl (fun x b => b.apply x) x

/-- Sequential composition of the blocks in list order:
`blocks[n-1](... blocks[1](blocks[0](x)) ...)`. -/
def seqApply : List Layer → Arr → Arr
  | [], x => x
  | b :: bs, x => seqApply bs (b.apply x)

/-- `def awesome_layer(x): return x` — the monkey-patched plain
function of the notebook. -/
def awesome_layer (x : Arr) : Arr := x

/-- Modelled from the spec: a Filter as used in the notebook — a
predicate on Variable types (`model.split(nnx.Param, Count)`). -/
abbrev VarFilter := VarType → Bool

/-- The `nnx.Param` Filter. -/
def isParamF : VarFilter := fun t =>
  match t with
  | .Param => true
  | _ => false

/-- The `Count` Filter. -/
def isCountF : VarFilter := fun t =>
  match t with
  | .Count => true
  | _ => false

/-- Index of the first Filter matching a Variable type, if any. -/
def firstMatchIdx (fs : List VarFilter) (t : VarType) : Option Nat :=
  match fs with
  | [] => none
  | f :: rest => if f t then some 0 else (firstMatchIdx rest t).map (fun i => i + 1)

/-- The States produced by split with Filters: State `i` holds exactly
the Variables whose first matching Filter is Filter `i`. -/
def statesFor (m : FlatModule) (fs : List VarFilter) : List NState :=
  (List.range fs.length).map (fun i =>
    m.vars.filter (fun nv => decide (firstMatchIdx fs nv.2.varType = some i)))

/-- Modelled from the spec: `split` with Filters partitions "the
Variables into mutually exclusive States"; "filters must be exhaustive,
if a Variable is not matched an error will be raised". -/
def FlatModule.splitFilters (m : FlatModule) (fs : List VarFilter) :
    Except String (GraphDef × List NState) :=
  if m.vars.all (fun nv => (firstMatchIdx fs nv.2.varType).isSome) then
    Except.ok ((m.split).1, statesFor m fs)
  else
    Except.error "Non-exhaustive filters"

/-- Modelled from the spec: `update` "can update a Module structure from
a compatible State, this is often used to propagate the state updates
from a transform back to the source object".  `update(*states)` consumes
a sequence of States; each Variable of the Module whose name appears in
them takes the State value (first occurrence wins; the notebook only
uses States with disjoint names). -/
def FlatModule.updateAll (m : FlatModule) (ss : List NState) : FlatModule :=
  { m with vars := m.vars.map (fun nv =>
      match lookupS nv.1 ss.flatten with
      | some v => (nv.1, v)
      | none => nv) }

/-- The dynamic view of a `StatefulLinear`: its attributes `w`, `b`,
`count` in definition order, as printed by the notebook
(`State({'w': Param(...), 'b': Param(...), 'count': Count(...)})`). -/
def StatefulLinear.toFlat (m : StatefulLinear) : FlatModule :=
  ⟨[], [("w", ⟨VarType.Param, Value.mat m.w⟩),
        ("b", ⟨VarType.Param, Value.vec m.b⟩),
        ("count", ⟨VarType.Count, Value.int m.count⟩)]⟩

/-- Reading a `StatefulLinear` back off its flat dynamic view. -/
def StatefulLinear.ofFlat (f : FlatModule) : Option StatefulLinear :=
  match lookupS "w" f.vars, lookupS "b" f.vars, lookupS "count" f.vars with
  | some ⟨_, Value.mat w⟩, some ⟨_, Value.vec b⟩, some ⟨_, Value.int c⟩ =>
      some ⟨w, b, c⟩
  | _, _, _ => none

/-- The jitted `forward` function of the notebook: merge the State into
a Module inside the transform, call the Module, split the updated State
back out, and return both the output and that State. -/
def forwardFn (static : GraphDef) (state : NState) (x : Arr) :
    Option (Arr × NState) := do
  let flat ← static.merge state
  let model ← StatefulLinear.ofFlat flat
  let (y, model2) := model.call x
  return (y, (model2.toFlat.split).2)

/-- Modelled from the spec: a Module graph with reference sharing — a
list of attribute slots (paths), each referring to a Variable object by
identity, over a store of Variable values.  Two aliased paths, such as
`model.blocks[-1].linear.kernel` and `model.blocks[0].linear.kernel`
after the surgery cell, are two slots holding the same reference. -/
structure RefModule where
  slots : List Nat
  store : List Int
deriving DecidableEq, Repr

/-- Reading the Variable a path refers to. -/
def RefModule.read (m : RefModule) (i : Nat) : Int :=
  m.store.getD (m.slots.getD i 0) 0

/-- Writing through a path mutates the referenced Variable in place, so
the write is visible through every aliasing path. -/
def RefModule.write (m : RefModule) (i : Nat) (v : Int) : RefModule :=
  { m with store := m.store.set (m.slots.getD i 0) v }

/-- References in first-seen order, each kept once. -/
def firstSeen : List Nat → List Nat
  | [] => []
  | a :: rest => a :: (firstSeen rest).filter (fun b => decide (b ≠ a))

/-- Modelled from the spec: splitting a module graph with sharing.  Each
distinct Variable gets one index in first-seen order; the graph
definition records, per path, the index of its Variable, and the State
holds each distinct Variable value exactly once. -/
def RefModule.splitRef (m : RefModule) : List Nat × List Int :=
  (m.slots.map (fun id => (firstSeen m.slots).indexOf id),
   (firstSeen m.slots).map (fun id => m.store.getD id 0))

/-- Modelled from the spec: merging rebuilds the graph, turning each
recorded index back into a shared reference into the rebuilt store. -/
def mergeRef (gdef : List Nat) (st : List Int) : RefModule :=
  ⟨gdef, st⟩


theorem lookupS_cons_self {α : Type} (p : String × α)
    (rest : List (String × α)) : lookupS p.1 (p :: rest) = some p.2 := by
  cases p with
  | mk k v => simp [lookupS]

theorem lookupS_cons_ne {α : Type} (n : String) (p : String × α)
    (rest : List (String × α)) (h : p.1 ≠ n) :
    lookupS n (p :: rest) = lookupS n rest := by
  cases p with
  | mk k v =>
      simp only [lookupS]
      exact if_neg h

theorem mapM_option_congr {α β : Type} {f g : α → Option β} :
    ∀ {l : List α}, (∀ a ∈ l, f a = g a) → l.mapM f = l.mapM g
  | [], _ => rfl
  | a :: l, h => by
      simp only [List.mapM_cons, h a (List.mem_cons_self a l)]
      rw [mapM_option_congr (fun a ha => h a (List.mem_cons_of_mem _ ha))]

/-- Rebuilding the variable list of a module from its own split, when
the variable names are distinct, gives back the original list. -/
theorem mergeVars_of_nodup (vs : List (String × Var))
    (h : (keysOf vs).Nodup) :
    ((vs.map (fun nv => (nv.1, nv.2.varType))).mapM
      (fun nt => (lookupS nt.1 vs).map (fun v => (nt.1, v)))) = some vs := by
  induction vs with
  | nil => rfl
  | cons hd tl ih =>
      have h2 : (hd.1 :: keysOf tl).Nodup := h
      have hmem : hd.1 ∉ keysOf tl := (List.nodup_cons.mp h2).1
      have hne : ∀ nt ∈ tl, nt.1 ≠ hd.1 := fun nt hnt hEq =>
        hmem (hEq ▸ List.mem_map_of_mem Prod.fst hnt)
      have hlift : ((tl.map (fun nv => (nv.1, nv.2.varType))).mapM
          (fun nt => (lookupS nt.1 (hd :: tl)).map (fun v => (nt.1, v)))) = some tl := by
        have hstep : ((tl.map (fun nv => (nv.1, nv.2.varType))).mapM
            (fun nt => (lookupS nt.1 (hd :: tl)).map (fun v => (nt.1, v))))
            = ((tl.map (fun nv => (nv.1, nv.2.varType))).mapM
                (fun nt => (lookupS nt.1 tl).map (fun v => (nt.1, v)))) := by
          apply mapM_option_congr
          intro nt hnt
          rcases List.mem_map.mp hnt with ⟨nv, hnv, rfl⟩
          rw [lookupS_cons_ne _ _ _ (fun hEq => hne nv hnv hEq.symm)]
        rw [hstep, ih h2.of_cons]
      rw [List.map_cons, List.mapM_cons, lookupS_cons_self, hlift]
      simp

theorem counter_callN_count (c : Counter) (n : Nat) :
    (c.callN n).count = c.count + n := by
  induction n with
  | zero => simp [Counter.callN]
  | succ k ih =>
      simp [Counter.callN, Counter.call, ih]
      ring

theorem seqApply_eq_foldl (bs : List Layer) (x : Arr) :
    bs.foldl (fun x b => b.apply x) x = seqApply bs x := by
  induction bs generalizing x with
  | nil => rfl
  | cons b rest ih => simp [seqApply, List.foldl_cons, ih]

/-- C1: split/merge round-trip: for every Module, merging the GraphDef
and State produced by `split` reconstructs the Module — its variable
values, static attributes and structure — so merge is the inverse of
split (a Module's attribute names are distinct, as Python attributes
are). -/
theorem C1_split_merge_roundtrip (m : FlatModule)
    (h : (keysOf m.vars).Nodup) :
    (m.split).1.merge (m.split).2 = some m := by
  unfold FlatModule.split GraphDef.merge
  simp only
  rw [mergeVars_of_nodup m.vars h]
  rfl

/-- Witness for C1 at a concrete `StatefulLinear` instance. -/
theorem C1_witness :
    (keysOf (StatefulLinear.toFlat
        ⟨⟨2, 3, fun _ _ => 1⟩, ⟨3, fun _ => 0⟩, 0⟩).vars).Nodup
    ∧ ((StatefulLinear.toFlat
        ⟨⟨2, 3, fun _ _ => 1⟩, ⟨3, fun _ => 0⟩, 0⟩).split).1.merge
        ((StatefulLinear.toFlat
        ⟨⟨2, 3, fun _ _ => 1⟩, ⟨3, fun _ => 0⟩, 0⟩).split).2
      = some (StatefulLinear.toFlat
        ⟨⟨2, 3, fun _ _ => 1⟩, ⟨3, fun _ => 0⟩, 0⟩) :=
  ⟨by decide, C1_split_merge_roundtrip _ (by decide)⟩

/-- C3: Functional-API equivalence: the functional pattern — `split` the
Module, `merge` inside the transform, call the merged Module on `x`,
`split` its updated State back out, and `update` the original Module —
returns the same output and leaves the original Module in the same
final state (same flat dynamic view, `count` included) as calling the
Module directly on the mutable object. -/
theorem C3_functional_equiv (m : StatefulLinear) (x : Arr) :
    forwardFn ((m.toFlat.split).1) ((m.toFlat.split).2) x
      = some ((m.call x).1, (((m.call x).2.toFlat).split).2)
    ∧ m.toFlat.updateAll [(((m.call x).2.toFlat).split).2]
      = ((m.call x).2).toFlat :=
  ⟨rfl, rfl⟩

/-- C7: Counter semantics: construction sets `count` to `0`, each call
increments it by exactly `1`, after `n` calls it equals `n`, and the
narrated outputs `0` then `1` after one call are what the program
produces. -/
theorem C7_counter (n : Nat) :
    Counter.init.count = 0
    ∧ (Counter.init.callN n).count = n
    ∧ (∀ c : Counter, (c.call).count = c.count + 1)
    ∧ (Counter.init.call).count = 1 := by
  refine ⟨rfl, ?_, fun c => rfl, rfl⟩
  rw [counter_callN_count]
  simp [Counter.init]

/-- C8: Forward-call frame: calling a `StatefulLinear` on any input
changes only the `count` Variable: `w` and `b` are unchanged (the class
stores no further static attributes) and `count` goes up by one. -/
theorem C8_call_frame (m : StatefulLinear) (x : Arr) :
    (m.call x).2.w = m.w
    ∧ (m.call x).2.b = m.b
    ∧ (m.call x).2.count = m.count + 1 :=
  ⟨rfl, rfl, rfl⟩

/-- C10: MLP sequential composition: `MLP.__call__` applies the blocks
in list order, `blocks[n-1](... blocks[1](blocks[0](x)) ...)`, and this
still holds after any entry of `blocks` is replaced by a plain function
such as `awesome_layer`, which is applied in its position like any
block. -/
theorem C10_mlp_sequential (m : MLP) (x : Arr) :
    m.call x = seqApply m.blocks x
    ∧ ∀ (i : Nat) (f : Arr → Arr),
        (MLP.mk (m.blocks.set i (Layer.fn f))).call x
          = seqApply (m.blocks.set i (Layer.fn f)) x :=
  ⟨seqApply_eq_foldl m.blocks x, fun _ _ => seqApply_eq_foldl _ x⟩

/-- C4: StatefulLinear forward: with `w` of shape `(din, dout)`, `b` of
shape `(dout,)` and `x` of shape `(n, din)`, the call returns
`x @ w + b` — an `(n, dout)` array whose `(i, j)` entry is
`(sum over k < din of x[i, k] * w[k, j]) + b[j]` — and increments
`count.value` by exactly `1`. -/
theorem C4_statefulLinear_forward (m : StatefulLinear) (x : Arr)
    (din dout n : Nat)
    (_hwr : m.w.rows = din) (hwc : m.w.cols = dout) (_hb : m.b.len = dout)
    (hxr : x.rows = n) (hxc : x.cols = din) :
    ((m.call x).1.rows = n ∧ (m.call x).1.cols = dout)
    ∧ (∀ i j, (m.call x).1.ent i j
        = (∑ k ∈ Finset.range din, x.ent i k * m.w.ent k j) + m.b.ent j)
    ∧ (m.call x).2.count = m.count + 1 := by
  refine ⟨⟨?_, ?_⟩, fun i j => ?_, rfl⟩
  · simpa [StatefulLinear.call, addRowVec, matMulA] using hxr
  · simpa [StatefulLinear.call, addRowVec, matMulA] using hwc
  · simp [StatefulLinear.call, addRowVec, matMulA, hxc]

/-- Witness for C4 at a concrete `StatefulLinear` and input. -/
theorem C4_witness :
    ((⟨⟨2, 3, fun i j => (i : Int) + j⟩, ⟨3, fun j => (j : Int)⟩, 0⟩
        : StatefulLinear).w.rows = 2
     ∧ (⟨⟨2, 3, fun i j => (i : Int) + j⟩, ⟨3, fun j => (j : Int)⟩, 0⟩
        : StatefulLinear).w.cols = 3
     ∧ (⟨⟨2, 3, fun i j => (i : Int) + j⟩, ⟨3, fun j => (j : Int)⟩, 0⟩
        : StatefulLinear).b.len = 3
     ∧ (⟨1, 2, fun _ _ => 1⟩ : Arr).rows = 1
     ∧ (⟨1, 2, fun _ _ => 1⟩ : Arr).cols = 2)
    ∧ ((⟨⟨2, 3, fun i j => (i : Int) + j⟩, ⟨3, fun j => (j : Int)⟩, 0⟩
        : StatefulLinear).call ⟨1, 2, fun _ _ => 1⟩).2.count = 0 + 1 :=
  ⟨⟨rfl, rfl, rfl, rfl, rfl⟩,
   (C4_statefulLinear_forward _ _ 2 3 1 rfl rfl rfl rfl rfl).2.2⟩

theorem updated_vars_lookup (vs : List (String × Var)) (flat : NState)
    (n : String) (v : Var) (hmem : n ∈ keysOf vs)
    (hlook : lookupS n flat = some v) :
    lookupS n (vs.map (fun nv =>
      match lookupS nv.1 flat with
      | some v2 => (nv.1, v2)
      | none => nv)) = some v := by
  induction vs with
  | nil => simp [keysOf] at hmem
  | cons hd tl ih =>
      obtain ⟨k, w⟩ := hd
      have hmem2 : n = k ∨ n ∈ keysOf tl := List.mem_cons.mp hmem
      rw [List.map_cons]
      by_cases hkn : k = n
      · subst hkn
        have hk : lookupS k flat = some v := hlook
        simp only [hk]
        exact lookupS_cons_self (k, v) _
      · cases hm : lookupS k flat with
        | none =>
            simp only [hm]
            rw [lookupS_cons_ne n (k, w) _ hkn]
            exact ih (hmem2.resolve_left (fun h => hkn h.symm))
        | some v2 =>
            simp only [hm]
            rw [lookupS_cons_ne n (k, v2) _ hkn]
            exact ih (hmem2.resolve_left (fun h => hkn h.symm))

/-- C5: update propagation: `update` sets each Variable of the Module
named in the given State(s) to the value stored there — looking the name
up in the updated Module returns the State's Variable. -/
theorem C5_update_propagation (m : FlatModule) (ss : List NState)
    (n : String) (v : Var) (hmem : n ∈ keysOf m.vars)
    (hlook : lookupS n ss.flatten = some v) :
    lookupS n ((m.updateAll ss).vars) = some v := by
  unfold FlatModule.updateAll
  exact updated_vars_lookup m.vars ss.flatten n v hmem hlook

/-- Witness for C5: updating with a State carrying `count = 1` leaves
the model with `count.value = 1`, as narrated by the notebook. -/
theorem C5_witness :
    "count" ∈ keysOf (StatefulLinear.toFlat
        ⟨⟨2, 3, fun _ _ => 1⟩, ⟨3, fun _ => 0⟩, 0⟩).vars
    ∧ lookupS "count"
        ([[("count", ⟨VarType.Count, Value.int 1⟩)]] : List NState).flatten
        = some ⟨VarType.Count, Value.int 1⟩
    ∧ lookupS "count" (((StatefulLinear.toFlat
        ⟨⟨2, 3, fun _ _ => 1⟩, ⟨3, fun _ => 0⟩, 0⟩).updateAll
        [[("count", ⟨VarType.Count, Value.int 1⟩)]]).vars)
        = some ⟨VarType.Count, Value.int 1⟩ :=
  ⟨by decide, rfl, C5_update_propagation _ _ _ _ (by decide) rfl⟩

theorem firstMatchIdx_lt (fs : List VarFilter) (t : VarType) (i : Nat)
    (h : firstMatchIdx fs t = some i) : i < fs.length := by
  induction fs generalizing i with
  | nil => simp [firstMatchIdx] at h
  | cons f rest ih =>
      simp only [firstMatchIdx] at h
      by_cases hf : f t
      · rw [if_pos hf] at h
        cases h
        simp
      · rw [if_neg hf] at h
        obtain ⟨j, hj, hji⟩ := Option.map_eq_some'.mp h
        have := ih j hj
        simp only [List.length_cons]
        omega

theorem firstMatchIdx_earlier (fs : List VarFilter) (t : VarType) (i i2 : Nat)
    (h : firstMatchIdx fs t = some i) (h2 : i2 < i) :
    fs.getD i2 (fun _ => false) t = false := by
  induction fs generalizing i i2 with
  | nil => simp [firstMatchIdx] at h
  | cons f rest ih =>
      simp only [firstMatchIdx] at h
      by_cases hf : f t
      · rw [if_pos hf] at h
        cases h
        omega
      · rw [if_neg hf] at h
        obtain ⟨j, hj, hji⟩ := Option.map_eq_some'.mp h
        cases i2 with
        | zero => simpa using hf
        | succ k =>
            have hk : k < j := by omega
            simpa [List.getD_cons_succ] using ih j k hj hk

theorem statesFor_getD (m : FlatModule) (fs : List VarFilter) (i : Nat)
    (h : i < fs.length) :
    (statesFor m fs).getD i []
      = m.vars.filter (fun nv =>
          decide (firstMatchIdx fs nv.2.varType = some i)) := by
  unfold statesFor
  rw [List.getD_eq_getElem _ _ (by simpa using h)]
  simp

/-- C2: Non-exhaustive filter error: if some Variable of the Module is
matched by no filter, `split` raises an error; if the filters are
exhaustive, `split` returns normally with every Variable placed in some
returned State. -/
theorem C2_nonexhaustive_error (m : FlatModule) (fs : List VarFilter) :
    ((∃ nv ∈ m.vars, firstMatchIdx fs nv.2.varType = none) →
      m.splitFilters fs = Except.error "Non-exhaustive filters")
    ∧ ((∀ nv ∈ m.vars, (firstMatchIdx fs nv.2.varType).isSome) →
      m.splitFilters fs = Except.ok ((m.split).1, statesFor m fs)
        ∧ ∀ nv ∈ m.vars, ∃ i, i < fs.length
            ∧ nv ∈ (statesFor m fs).getD i []) := by
  constructor
  · rintro ⟨nv, hnv, hnone⟩
    unfold FlatModule.splitFilters
    rw [if_neg]
    intro hall
    have := List.all_eq_true.mp hall nv hnv
    rw [hnone] at this
    simp at this
  · intro hEx
    constructor
    · unfold FlatModule.splitFilters
      rw [if_pos (List.all_eq_true.mpr (fun nv hnv => hEx nv hnv))]
    · intro nv hnv
      obtain ⟨i, hi⟩ := Option.isSome_iff_exists.mp (hEx nv hnv)
      have hlt := firstMatchIdx_lt _ _ _ hi
      refine ⟨i, hlt, ?_⟩
      rw [statesFor_getD _ _ _ hlt]
      exact List.mem_filter.mpr ⟨hnv, by simp [hi]⟩

/-- Witness for C2: on a `StatefulLinear`, splitting with only the
`nnx.Param` filter leaves `count` unmatched and raises the error. -/
theorem C2_witness :
    (∃ nv ∈ (StatefulLinear.toFlat
        ⟨⟨2, 3, fun _ _ => 1⟩, ⟨3, fun _ => 0⟩, 0⟩).vars,
      firstMatchIdx [isParamF] nv.2.varType = none)
    ∧ (StatefulLinear.toFlat
        ⟨⟨2, 3, fun _ _ => 1⟩, ⟨3, fun _ => 0⟩, 0⟩).splitFilters [isParamF]
        = Except.error "Non-exhaustive filters" :=
  ⟨⟨("count", ⟨VarType.Count, Value.int 0⟩),
    List.mem_cons_of_mem _ (List.mem_cons_of_mem _ (List.mem_cons_self _ _)),
    rfl⟩,
   (C2_nonexhaustive_error _ _).1
     ⟨("count", ⟨VarType.Count, Value.int 0⟩),
      List.mem_cons_of_mem _ (List.mem_cons_of_mem _ (List.mem_cons_self _ _)),
      rfl⟩⟩

/-- C6: Filter partition: with exhaustive Filters, `split` returns the
States of `statesFor`, which partition the Variables into mutually
exclusive sets — every Variable lands in exactly one State, and a State
never holds a Variable matched by an earlier filter. -/
theorem C6_filter_partition (m : FlatModule) (fs : List VarFilter)
    (hEx : ∀ nv ∈ m.vars, (firstMatchIdx fs nv.2.varType).isSome) :
    m.splitFilters fs = Except.ok ((m.split).1, statesFor m fs)
    ∧ (∀ nv ∈ m.vars, ∃ i, i < fs.length
        ∧ nv ∈ (statesFor m fs).getD i []
        ∧ ∀ i2, i2 < fs.length → nv ∈ (statesFor m fs).getD i2 [] → i2 = i)
    ∧ (∀ i, i < fs.length → ∀ nv ∈ (statesFor m fs).getD i [],
        ∀ i2, i2 < i → fs.getD i2 (fun _ => false) nv.2.varType = false) := by
  refine ⟨?_, ?_, ?_⟩
  · unfold FlatModule.splitFilters
    rw [if_pos (List.all_eq_true.mpr (fun nv hnv => hEx nv hnv))]
  · intro nv hnv
    obtain ⟨i, hi⟩ := Option.isSome_iff_exists.mp (hEx nv hnv)
    have hlt := firstMatchIdx_lt _ _ _ hi
    refine ⟨i, hlt, ?_, ?_⟩
    · rw [statesFor_getD _ _ _ hlt]
      exact List.mem_filter.mpr ⟨hnv, by simp [hi]⟩
    · intro i2 hi2 hmem2
      rw [statesFor_getD _ _ _ hi2] at hmem2
      have h2 := (List.mem_filter.mp hmem2).2
      simp only [decide_eq_true_eq] at h2
      rw [hi] at h2
      exact (Option.some.inj h2).symm
  · intro i hi nv hmem i2 hi2
    rw [statesFor_getD _ _ _ hi] at hmem
    have h2 := (List.mem_filter.mp hmem).2
    simp only [decide_eq_true_eq] at h2
    exact firstMatchIdx_earlier _ _ _ _ h2 hi2

/-- Witness for C6: on a `StatefulLinear`, `split(nnx.Param, Count)`
returns `params` containing exactly `w` and `b` and `counts` containing
exactly `count`. -/
theorem C6_witness :
    (∀ nv ∈ (StatefulLinear.toFlat
        ⟨⟨2, 3, fun _ _ => 1⟩, ⟨3, fun _ => 0⟩, 4⟩).vars,
      (firstMatchIdx [isParamF, isCountF] nv.2.varType).isSome)
    ∧ (StatefulLinear.toFlat
        ⟨⟨2, 3, fun _ _ => 1⟩, ⟨3, fun _ => 0⟩, 4⟩).splitFilters
        [isParamF, isCountF]
        = Except.ok (((StatefulLinear.toFlat
            ⟨⟨2, 3, fun _ _ => 1⟩, ⟨3, fun _ => 0⟩, 4⟩).split).1,
          statesFor (StatefulLinear.toFlat
            ⟨⟨2, 3, fun _ _ => 1⟩, ⟨3, fun _ => 0⟩, 4⟩) [isParamF, isCountF])
    ∧ statesFor (StatefulLinear.toFlat
        ⟨⟨2, 3, fun _ _ => 1⟩, ⟨3, fun _ => 0⟩, 4⟩) [isParamF, isCountF]
        = [[("w", ⟨VarType.Param, Value.mat ⟨2, 3, fun _ _ => 1⟩⟩),
            ("b", ⟨VarType.Param, Value.vec ⟨3, fun _ => 0⟩⟩)],
           [("count", ⟨VarType.Count, Value.int 4⟩)]] :=
  ⟨by decide, (C6_filter_partition _ _ (by decide)).1, rfl⟩

theorem mem_firstSeen (a : Nat) : ∀ (l : List Nat), a ∈ firstSeen l ↔ a ∈ l := by
  intro l
  induction l with
  | nil => simp [firstSeen]
  | cons x rest ih =>
      simp only [firstSeen, List.mem_cons, List.mem_filter]
      constructor
      · rintro (rfl | ⟨hmem, _⟩)
        · exact Or.inl rfl
        · exact Or.inr (ih.mp hmem)
      · rintro (rfl | hmem)
        · exact Or.inl rfl
        · by_cases hax : a = x
          · exact Or.inl hax
          · exact Or.inr ⟨ih.mpr hmem, by simp [hax]⟩

theorem getD_map_of_lt {α β : Type} (f : α → β) (l : List α) (i : Nat)
    (d : α) (d2 : β) (h : i < l.length) :
    (l.map f).getD i d2 = f (l.getD i d) := by
  rw [List.getD_eq_getElem _ _ (by simpa using h), List.getElem_map,
    List.getD_eq_getElem _ _ h]

/-- C9: Sharing preservation: in a module graph where two attribute
paths reference the same Variable, splitting and merging yields a graph
in which the two paths still reference a single shared object — the
rebuilt slots carry equal references — so a write through one path is
visible when reading through the other. -/
theorem C9_sharing_preserved (m : RefModule) (i j : Nat) (v : Int)
    (hi : i < m.slots.length) (hj : j < m.slots.length)
    (hal : m.slots.getD i 0 = m.slots.getD j 0) :
    (mergeRef (m.splitRef).1 (m.splitRef).2).slots.getD i 0
      = (mergeRef (m.splitRef).1 (m.splitRef).2).slots.getD j 0
    ∧ ((mergeRef (m.splitRef).1 (m.splitRef).2).write i v).read j = v := by
  have hslots : ∀ k, k < m.slots.length →
      (mergeRef (m.splitRef).1 (m.splitRef).2).slots.getD k 0
        = (firstSeen m.slots).indexOf (m.slots.getD k 0) := by
    intro k hk
    unfold mergeRef RefModule.splitRef
    exact getD_map_of_lt _ _ _ 0 _ hk
  have heq : (mergeRef (m.splitRef).1 (m.splitRef).2).slots.getD i 0
      = (mergeRef (m.splitRef).1 (m.splitRef).2).slots.getD j 0 := by
    rw [hslots i hi, hslots j hj, hal]
  refine ⟨heq, ?_⟩
  have hmem : m.slots.getD i 0 ∈ m.slots := by
    rw [List.getD_eq_getElem _ _ hi]
    exact List.getElem_mem hi
  have hmemFS : m.slots.getD i 0 ∈ firstSeen m.slots :=
    (mem_firstSeen _ _).mpr hmem
  have hidx : (firstSeen m.slots).indexOf (m.slots.getD i 0)
      < (firstSeen m.slots).length :=
    List.indexOf_lt_length.mpr hmemFS
  have hstlen : ((m.splitRef).2).length = (firstSeen m.slots).length := by
    unfold RefModule.splitRef
    simp
  unfold RefModule.read RefModule.write
  simp only
  rw [hslots i hi] at heq ⊢
  rw [← heq]
  rw [List.getD_eq_getElem _ _ (by
    rw [List.length_set]
    show List.indexOf (m.slots.getD i 0) (firstSeen m.slots) < ((m.splitRef).2).length
    rw [hstlen]
    exact hidx)]
  exact List.getElem_set_self _

/-- Witness for C9 at the notebook's aliasing pattern: slots 0 and 2
share one Variable; after split and merge a write through slot 0 is
read back through slot 2. -/
theorem C9_witness :
    (0 < (RefModule.mk [0, 1, 0] [5, 7]).slots.length
      ∧ 2 < (RefModule.mk [0, 1, 0] [5, 7]).slots.length
      ∧ (RefModule.mk [0, 1, 0] [5, 7]).slots.getD 0 0
          = (RefModule.mk [0, 1, 0] [5, 7]).slots.getD 2 0)
    ∧ ((mergeRef ((RefModule.mk [0, 1, 0] [5, 7]).splitRef).1
          ((RefModule.mk [0, 1, 0] [5, 7]).splitRef).2).write 0 9).read 2 = 9 :=
  ⟨⟨by decide, by decide, by decide⟩,
   (C9_sharing_preserved (RefModule.mk [0, 1, 0] [5, 7]) 0 2 9
     (by decide) (by decide) (by decide)).2⟩
